import Mathlib

/-!
Verification of the Tetris mini-app game core
(`src/lib/tetrominos.ts` and the game-state module).

The TypeScript source is shallowly embedded: boards are lists of rows of
cells, piece coordinates are integers (they may go negative while a piece
is near the top of the board), and the two `while`-style loops of the
source (line clearing and shadow projection) are embedded as
fuel-indexed recursions whose fuel provably suffices on the inputs the
game produces.  The one source of nondeterminism, `Math.random` inside
`randomTetromino`, is threaded through as an explicit oracle
`rt : Nat → TetrominoType` giving the type chosen by the i-th random
call of a transition.
-/

/-- The seven tetromino type tags (`TetrominoType` in `types.ts`,
modelled from the spec: the classic heptomino set as an immutable
enumeration). -/
inductive TetrominoType
  | I | J | L | O | S | T | Z
  deriving DecidableEq, Repr

/-- A board cell: `'empty'` or the tag of the piece type occupying it
(`CellValue` in `types.ts`, modelled from the spec: each cell holds
either "empty" or a piece-type tag).  `undef` is the JavaScript
`undefined` read back from an array hole: it can enter a row only
through an out-of-range column write during the lock's stamping phase,
never during in-range play.  Like a piece tag it is distinct from
`'empty'`, so the source's `cell !== 'empty'` tests treat it as
occupied. -/
inductive CellValue
  | empty
  | fill (t : TetrominoType)
  | undef
  deriving DecidableEq, Repr

/-- A board position in board coordinates (`Position` in `types.ts`,
modelled from the spec; `y` may be negative while spawning). -/
structure Position where
  x : Int
  y : Int
  deriving DecidableEq, Repr

/-- A piece (`Tetromino` in `types.ts`, modelled from the spec:
`{ type, shape, position, rotation }`). -/
structure Tetromino where
  type : TetrominoType
  shape : List (List Nat)
  position : Position
  rotation : Nat
  deriving DecidableEq, Repr

abbrev Board := List (List CellValue)

/-- The `TETROMINOS` table from `tetrominos.ts`: the base shape matrix of each type. -/
def TETROMINOS : TetrominoType → List (List Nat)
  | .I => [[0, 0, 0, 0],
           [1, 1, 1, 1],
           [0, 0, 0, 0],
           [0, 0, 0, 0]]
  | .J => [[1, 0, 0],
           [1, 1, 1],
           [0, 0, 0]]
  | .L => [[0, 0, 1],
           [1, 1, 1],
           [0, 0, 0]]
  | .O => [[1, 1],
           [1, 1]]
  | .S => [[0, 1, 1],
           [1, 1, 0],
           [0, 0, 0]]
  | .T => [[0, 1, 0],
           [1, 1, 1],
           [0, 0, 0]]
  | .Z => [[1, 1, 0],
           [0, 1, 1],
           [0, 0, 0]]

/-- Embedding of `randomTetromino` from `tetrominos.ts`, with the (possibly random)
choice of type made explicit as the argument: the result always has the
catalog base shape, spawn position `{x: type === 'O' ? 4 : 3, y: 0}` and
rotation `0`. -/
def randomTetromino (type : TetrominoType) : Tetromino :=
  { type := type
    shape := TETROMINOS type
    position := { x := if type = .O then 4 else 3, y := 0 }
    rotation := 0 }

/-- Embedding of `rotateTetromino` from `tetrominos.ts`: the O piece keeps its shape;
otherwise the double loop writes `rotated[x][size-1-y] = shape[y][x]`,
i.e. the cell of the result at `(r, c)` is the source cell at
`(size-1-c, r)`. -/
def rotateTetromino (t : Tetromino) : List (List Nat) :=
  if t.type = .O then t.shape
  else
    let size := t.shape.length
    (List.range size).map (fun r =>
      (List.range size).map (fun c =>
        ((t.shape.getD (size - 1 - c) []).getD r 0)))

/-- Embedding of `isValidPosition` from `tetrominos.ts`.  For every occupied shape
cell the board coordinates are `position + offset`; the first occupied
cell that is out of bounds (including `boardY < 0`) or collides with a
non-empty board cell makes the answer `false`.  The source's early
`return false` is embedded with `List.all` (the loop has no side
effects). -/
def isValidPosition (board : Board) (position : Position)
    (shape : List (List Nat)) : Bool :=
  (List.range shape.length).all (fun row =>
    (List.range ((shape.getD row []).length)).all (fun col =>
      if (shape.getD row []).getD col 0 = 0 then true
      else
        let boardX : Int := position.x + col
        let boardY : Int := position.y + row
        if boardX < 0 ∨ boardX ≥ ((board.getD 0 []).length : Int) ∨
            boardY < 0 ∨ boardY ≥ (board.length : Int) then false
        else
          decide (((board.getD boardY.toNat []).getD boardX.toNat .empty)
            = .empty)))

-- Constants from the game-state module.
def BOARD_WIDTH : Nat := 10
def BOARD_HEIGHT : Nat := 20
def POINTS_PER_LINE : List Nat := [0, 40, 100, 300, 1200]

/-- Embedding of `createEmptyBoard` from the game-state module. -/
def createEmptyBoard : Board :=
  List.replicate BOARD_HEIGHT (List.replicate BOARD_WIDTH .empty)

/-- The game actions (`GameAction` in `types.ts`, modelled from the
spec: the exhaustive payload-free action vocabulary). -/
inductive GameAction
  | MOVE_LEFT | MOVE_RIGHT | MOVE_DOWN | ROTATE | HARD_DROP
  | NEW_GAME | PAUSE_GAME | RESUME_GAME | GAME_OVER | TICK
  | NEW_PIECE | HOLD
  deriving DecidableEq, Repr

/-- The `GameState` aggregate from `types.ts`, modelled from the spec: board, nullable
current/next piece, queue of next pieces, nullable held piece type,
score, level, lines and the two flags. -/
structure GameState where
  board : Board
  currentPiece : Option Tetromino
  nextPiece : Option Tetromino
  nextPieces : List Tetromino
  heldPiece : Option TetrominoType
  score : Nat
  level : Nat
  lines : Nat
  gameOver : Bool
  isPaused : Bool
  deriving DecidableEq, Repr

/-- Embedding of `initGameState` from the game-state module; the five `randomTetromino()`
calls receive the oracle's first five answers in source order
(nextPiece, currentPiece, then the three queued previews). -/
def initGameState (rt : Nat → TetrominoType) : GameState :=
  { board := createEmptyBoard
    currentPiece := some (randomTetromino (rt 1))
    nextPiece := some (randomTetromino (rt 0))
    nextPieces := [randomTetromino (rt 2), randomTetromino (rt 3),
                   randomTetromino (rt 4)]
    heldPiece := none
    score := 0
    level := 1
    lines := 0
    gameOver := false
    isPaused := false }

/-- Embedding of `getDropSpeed` from the game-state module:
`max(100, 1000 - (level - 1) * 100)` over integers. -/
def getDropSpeed (level : Int) : Int :=
  max 100 (1000 - (level - 1) * 100)

/-- One write `newBoard[boardY][boardX] = type` of the lock loop, for a
row index the caller has already checked to be `≥ 0` (the lock aborts
on `boardY < 0` before writing).  The JavaScript array assignment is
embedded case by case:
* column inside the row: the cell is replaced;
* column at or past the row's length: the assignment *extends* the row,
  leaving `undefined` holes between the old end and the written index —
  embedded by appending `undef` cells and the value, so an out-of-range
  lock really does produce a row longer than `BOARD_WIDTH`;
* negative column: the source stores an expando property on the array,
  which changes no indexed cell and no length, so the board is
  unchanged;
* row index at or past the board's length: the source throws a
  `TypeError` (`newBoard[boardY]` is `undefined`), producing no next
  state at all; the embedding leaves the board unchanged there, and no
  theorem below draws a conclusion from that case — the dimensional
  invariant (C8) carries a hypothesis keeping every stamped row above
  the bottom, and C3/C7 only describe locks the program completes. -/
def setCell (b : Board) (y x : Int) (v : CellValue) : Board :=
  if x < 0 then b
  else if x.toNat < (b.getD y.toNat []).length then
    b.set y.toNat ((b.getD y.toNat []).set x.toNat v)
  else
    b.set y.toNat ((b.getD y.toNat []) ++
      List.replicate (x.toNat - (b.getD y.toNat []).length) .undef ++ [v])

/-- The inner column loop of `lockPieceAndContinue`'s stamping phase:
walks the cells of one shape row left to right; an occupied cell with
`boardY < 0` aborts the whole lock (`none`), any other occupied cell is
stamped with the piece's type. -/
def stampRow (type : TetrominoType) : Board → List Nat → Int → Int →
    Option Board
  | b, [], _, _ => some b
  | b, cell :: rest, bx, yb =>
    if cell ≠ 0 then
      if yb < 0 then none
      else stampRow type (setCell b yb bx (.fill type)) rest (bx + 1) yb
    else stampRow type b rest (bx + 1) yb

/-- The outer row loop of `lockPieceAndContinue`'s stamping phase. -/
def stampRows (type : TetrominoType) : Board → List (List Nat) → Int →
    Int → Option Board
  | b, [], _, _ => some b
  | b, r :: rs, px, py =>
    match stampRow type b r px py with
    | none => none
    | some b' => stampRows type b' rs px (py + 1)

/-- Whether a board row is complete: `row.every(cell => cell !== 'empty')`. -/
def isFullRow (row : List CellValue) : Bool :=
  row.all (fun cell => cell ≠ .empty)

/-- One fully-empty row, as `unshift`ed by the line-clear loop. -/
def emptyRow : List CellValue := List.replicate BOARD_WIDTH .empty

/-- The `for (y = BOARD_HEIGHT - 1; y >= 0; y--)` loop of `clearLines`,
with the loop index as an integer (it is compared with `0` and
decremented).  A complete row at index `y` is spliced out, an empty row
is unshifted at the top, and the same index is examined again (`y++`
followed by the loop's `y--`); otherwise the scan moves up.  The
recursion is indexed by fuel; `clearLines` passes fuel that provably
dominates the source loop's iteration count. -/
def clearLoop : Nat → Board → Int → Nat → Board × Nat
  | 0, b, _, count => (b, count)
  | fuel + 1, b, y, count =>
    if y < 0 then (b, count)
    else if isFullRow (b.getD y.toNat []) then
      clearLoop fuel (emptyRow :: (b.take y.toNat ++ b.drop (y.toNat + 1)))
        y (count + 1)
    else clearLoop fuel b (y - 1) count

/-- Embedding of `clearLines` from the game-state module: scan from `BOARD_HEIGHT - 1`
down to `0`.  Each loop iteration either moves the index up one row or
clears a row (at most `BOARD_HEIGHT` clears are possible in total, since
cleared rows are replaced by empty rows that are never complete), so
`2 * BOARD_HEIGHT + 1` fuel strictly dominates the source loop. -/
def clearLines (board : Board) : Board × Nat :=
  clearLoop (2 * BOARD_HEIGHT + 1) board ((BOARD_HEIGHT : Int) - 1) 0

/-- Embedding of `lockPieceAndContinue` from the game-state module.  Stamps the
current piece onto a copy of the board (aborting with an immediate
`gameOver` if an occupied cell lies above row 0, in which case the board
copy is discarded), clears lines, applies the scoring rule
`POINTS_PER_LINE[linesCleared] * level`, recomputes lines and level,
advances the piece queue using the oracle's first answer for the fresh
spawn, and sets `gameOver` when the cleared board's top row is not
empty. -/
def lockPieceAndContinue (rt : Nat → TetrominoType) (state : GameState) :
    GameState :=
  match state.currentPiece with
  | none => state
  | some p =>
    match stampRows p.type state.board p.shape p.position.x p.position.y with
    | none => { state with gameOver := true }
    | some newBoard =>
      let cleared := clearLines newBoard
      let additionalScore := POINTS_PER_LINE.getD cleared.2 0 * state.level
      let newScore := state.score + additionalScore
      let newLines := state.lines + cleared.2
      let newLevel := newLines / 10 + 1
      let updatedNextPieces := state.nextPieces.tail ++
        [randomTetromino (rt 0)]
      let isGameOver := (cleared.1.getD 0 []).any (fun cell => cell ≠ .empty)
      { state with
          board := cleared.1
          currentPiece := state.nextPiece
          nextPiece := state.nextPieces.head?
          nextPieces := updatedNextPieces
          score := newScore
          lines := newLines
          level := newLevel
          gameOver := isGameOver || state.gameOver }

/-- The `while (isValidPosition(..., y + 1)) y++` search shared by
`HARD_DROP` and `calculateShadowPosition`, indexed by fuel. -/
def dropLoop (board : Board) (pos : Position) (shape : List (List Nat)) :
    Nat → Int → Int
  | 0, y => y
  | fuel + 1, y =>
    if isValidPosition board { pos with y := y + 1 } shape then
      dropLoop board pos shape fuel (y + 1)
    else y

/-- Fuel that dominates the drop search: any position a piece with at
least one occupied shape cell validates at satisfies
`y < board.length`, so starting from `y₀` the loop runs fewer than
`board.length + 1 + max 0 (-y₀)` iterations. -/
def dropFuel (board : Board) (y₀ : Int) : Nat :=
  board.length + 1 + (-y₀).toNat

/-- Embedding of `calculateShadowPosition` from the game-state module: `null` without
an active piece, otherwise a copy of the active piece moved down to the
last `y` from which one more step down is invalid. -/
def calculateShadowPosition (state : GameState) : Option Tetromino :=
  match state.currentPiece with
  | none => none
  | some p =>
    let shadowY := dropLoop state.board p.position p.shape
      (dropFuel state.board p.position.y) p.position.y
    some { p with position := { p.position with y := shadowY } }

/-- The wall-kick loop of the `ROTATE` case: try the x-offsets
`[1, -1, 2, -2]` in order and return the state for the first offset at
which the rotated shape validates. -/
def tryKicks (state : GameState) (p : Tetromino)
    (rotatedShape : List (List Nat)) : List Int → GameState
  | [] => state
  | kick :: rest =>
    let kickedPosition := { p.position with x := p.position.x + kick }
    if isValidPosition state.board kickedPosition rotatedShape then
      { state with
          currentPiece := some { p with
            shape := rotatedShape
            position := kickedPosition
            rotation := (p.rotation + 1) % 4 } }
    else tryKicks state p rotatedShape rest

/-- Embedding of `gameReducer` from the game-state module.  `rt` answers the
`randomTetromino()` calls of this one transition in source order. -/
def gameReducer (rt : Nat → TetrominoType) (state : GameState)
    (action : GameAction) : GameState :=
  if state.gameOver ∧ action ≠ .NEW_GAME then state
  else if state.isPaused ∧ action ≠ .RESUME_GAME ∧ action ≠ .NEW_GAME then
    state
  else
    match action with
    | .NEW_GAME => initGameState rt
    | .PAUSE_GAME => { state with isPaused := true }
    | .RESUME_GAME => { state with isPaused := false }
    | .MOVE_LEFT =>
      match state.currentPiece with
      | none => state
      | some p =>
        let newPosition := { p.position with x := p.position.x - 1 }
        if isValidPosition state.board newPosition p.shape then
          { state with currentPiece := some { p with position := newPosition } }
        else state
    | .MOVE_RIGHT =>
      match state.currentPiece with
      | none => state
      | some p =>
        let newPosition := { p.position with x := p.position.x + 1 }
        if isValidPosition state.board newPosition p.shape then
          { state with currentPiece := some { p with position := newPosition } }
        else state
    | .MOVE_DOWN =>
      match state.currentPiece with
      | none => state
      | some p =>
        let newPosition := { p.position with y := p.position.y + 1 }
        if isValidPosition state.board newPosition p.shape then
          { state with currentPiece := some { p with position := newPosition } }
        else lockPieceAndContinue rt state
    | .ROTATE =>
      match state.currentPiece with
      | none => state
      | some p =>
        let rotatedShape := rotateTetromino p
        if isValidPosition state.board p.position rotatedShape then
          { state with
              currentPiece := some { p with
                shape := rotatedShape
                rotation := (p.rotation + 1) % 4 } }
        else tryKicks state p rotatedShape [1, -1, 2, -2]
    | .HARD_DROP =>
      match state.currentPiece with
      | none => state
      | some p =>
        let newY := dropLoop state.board p.position p.shape
          (dropFuel state.board p.position.y) p.position.y
        let droppedPiece :=
          { p with position := { p.position with y := newY } }
        lockPieceAndContinue rt
          { state with currentPiece := some droppedPiece }
    | .TICK => gameReducer rt state .MOVE_DOWN
    | .GAME_OVER => { state with gameOver := true }
    | .NEW_PIECE =>
      { state with
          currentPiece := state.nextPiece
          nextPiece := state.nextPieces.head?
          nextPieces := state.nextPieces.tail ++ [randomTetromino (rt 0)] }
    | .HOLD =>
      match state.currentPiece with
      | none => state
      | some p =>
        if state.gameOver then state
        else
          match state.heldPiece with
          | none =>
            { state with
                heldPiece := some p.type
                currentPiece := state.nextPiece
                nextPiece := state.nextPieces.head?
                nextPieces := state.nextPieces.tail ++
                  [randomTetromino (rt 0)] }
          | some tempHeld =>
            let newPiece := { randomTetromino tempHeld with
              position := { x := if tempHeld = .O then 4 else 3, y := 0 } }
            if ¬ isValidPosition state.board newPiece.position
                newPiece.shape then
              { state with gameOver := true }
            else
              { state with
                  heldPiece := some p.type
                  currentPiece := some newPiece }
termination_by if action = GameAction.TICK then 1 else 0
decreasing_by decide

/-- The validator exactly as claim C1 describes it: an occupied cell is
rejected only for leaving the horizontal range, reaching row
`height` or below, or overlapping a non-empty board cell — a negative
board row by itself imposes no constraint.  Used to compare the claim's
description against the source's `isValidPosition`. -/
def isValidPositionNoLowerBound (board : Board) (position : Position)
    (shape : List (List Nat)) : Bool :=
  (List.range shape.length).all (fun row =>
    (List.range ((shape.getD row []).length)).all (fun col =>
      if (shape.getD row []).getD col 0 = 0 then true
      else
        let boardX : Int := position.x + col
        let boardY : Int := position.y + row
        if boardX < 0 ∨ boardX ≥ ((board.getD 0 []).length : Int) ∨
            boardY ≥ (board.length : Int) then false
        else if 0 ≤ boardY ∧
            ((board.getD boardY.toNat []).getD boardX.toNat .empty)
              ≠ .empty then false
        else true))

/-- Concrete states used by the witness theorems below. -/
def rtAllI : Nat → TetrominoType := fun _ => TetrominoType.I

def statePlaying : GameState := initGameState rtAllI

def stateOver : GameState := { statePlaying with gameOver := true }

def statePaused : GameState := { statePlaying with isPaused := true }

def stateNoPiece : GameState := { statePlaying with currentPiece := none }

/-- Whether some occupied cell of `shape`, placed with its top row at
board row `py`, lies above row 0 of the board. -/
def pieceAboveBoard (shape : List (List Nat)) (py : Int) : Bool :=
  (List.range shape.length).any (fun r =>
    decide (py + (r : Int) < 0) && (shape.getD r []).any (fun cell => cell ≠ 0))

/-- A row completely filled with I cells, and a 20×10 board whose two
bottom rows are complete: concrete data for the C4 witness. -/
def fullRowI : List CellValue := List.replicate 10 (.fill .I)

def boardTwoFull : Board := List.replicate 18 emptyRow ++ [fullRowI, fullRowI]

/-- Piece and board data for the lock witnesses: a T piece resting at
`(3, 18)` over a board whose bottom row lacks exactly the three cells
the T's bottom row fills, and a T piece still above the board. -/
def rowMissingMiddle : List CellValue :=
  [.fill .I, .fill .I, .fill .I, .empty, .empty, .empty,
   .fill .I, .fill .I, .fill .I, .fill .I]

def boardAlmost : Board := List.replicate 19 emptyRow ++ [rowMissingMiddle]

def pieceTLow : Tetromino :=
  { randomTetromino .T with position := { x := 3, y := 18 } }

def stateLock : GameState :=
  { statePlaying with board := boardAlmost, currentPiece := some pieceTLow }

def stampedWitnessBoard : Board :=
  (stampRows .T boardAlmost (TETROMINOS .T) 3 18).getD []

def pieceTAbove : Tetromino :=
  { randomTetromino .T with position := { x := 3, y := -1 } }

def stateAbove : GameState :=
  { statePlaying with currentPiece := some pieceTAbove }

/-- State with an O piece already held, for the C6 witness. -/
def stateHeldO : GameState := { statePlaying with heldPiece := some .O }

/-- Every occupied cell of the shape, placed at `(px, py)`, is mapped
strictly left of column `BOARD_WIDTH` and strictly above the board's
bottom row.  This is the condition under which the lock's stamping
phase writes only inside existing rows: a write at or past column 10
extends the row in the source, and a write at or below row 20 throws
there (see `setCell`).  Rows above the board (negative `py + r`) are
allowed: the lock aborts before writing in that case.  Every
validator-approved position satisfies this. -/
def pieceWritesInRange (shape : List (List Nat)) (px py : Int) : Prop :=
  ∀ r, r < shape.length → ∀ c, c < (shape.getD r []).length →
    (shape.getD r []).getD c 0 ≠ 0 →
    px + (c : Int) < (BOARD_WIDTH : Int) ∧
    py + (r : Int) < (BOARD_HEIGHT : Int)

instance (shape : List (List Nat)) (px py : Int) :
    Decidable (pieceWritesInRange shape px py) := by
  unfold pieceWritesInRange
  infer_instance

/-- A T piece overlapping the right wall: its bottom row occupies
columns 8, 9 and 10, one past the board.  Such a state is dimensionally
well-formed, and locking it is the C8 counterexample. -/
def pieceTEdge : Tetromino :=
  { randomTetromino .T with position := { x := 8, y := 5 } }

def stateEdge : GameState :=
  { statePlaying with currentPiece := some pieceTEdge }

/-- The dimensional invariant of claim C8: 20 rows of 10 cells and a
queue of exactly 3 upcoming pieces. -/
def WellFormedState (s : GameState) : Prop :=
  s.board.length = 20 ∧ (∀ row ∈ s.board, row.length = 10) ∧
    s.nextPieces.length = 3

instance (s : GameState) : Decidable (WellFormedState s) := by
  unfold WellFormedState
  infer_instance

/-!
## Helper lemmas
-/

/-- Cell-level characterization of the validator: it accepts exactly
when every occupied shape cell lands inside
`[0, width) × [0, height)` — including `0 ≤ pos.y + r`, the lower bound
on the row — on an empty board cell. -/
lemma isValidPosition_eq_true_iff (board : Board) (pos : Position)
    (shape : List (List Nat)) :
    isValidPosition board pos shape = true ↔
      ∀ r, r < shape.length → ∀ c, c < (shape.getD r []).length →
        (shape.getD r []).getD c 0 ≠ 0 →
        0 ≤ pos.x + (c : Int) ∧
        pos.x + (c : Int) < ((board.getD 0 []).length : Int) ∧
        0 ≤ pos.y + (r : Int) ∧
        pos.y + (r : Int) < (board.length : Int) ∧
        (board.getD (pos.y + (r : Int)).toNat []).getD
          (pos.x + (c : Int)).toNat .empty = .empty := by
  simp only [isValidPosition, List.all_eq_true, List.mem_range]
  constructor
  · intro h r hr c hc hcell
    have h2 := h r hr c hc
    rw [if_neg hcell] at h2
    by_cases hb : pos.x + (c : Int) < 0 ∨
        pos.x + (c : Int) ≥ ((board.getD 0 []).length : Int) ∨
        pos.y + (r : Int) < 0 ∨ pos.y + (r : Int) ≥ (board.length : Int)
    · rw [if_pos hb] at h2; exact absurd h2 (by simp)
    · rw [if_neg hb] at h2
      push_neg at hb
      exact ⟨hb.1, hb.2.1, hb.2.2.1, hb.2.2.2, by simpa using h2⟩
  · intro h r hr c hc
    by_cases hcell : (shape.getD r []).getD c 0 = 0
    · rw [if_pos hcell]
    · rw [if_neg hcell]
      obtain ⟨h1, h2, h3, h4, h5⟩ := h r hr c hc hcell
      rw [if_neg (by push_neg; exact ⟨by omega, by omega, by omega, by omega⟩)]
      simpa using h5


/-!
## Claim theorems
-/

/-- C1 counterexample: with the T piece at `(3, -1)` on the empty board,
no occupied cell leaves the horizontal range, reaches the bottom, or
overlaps anything — the validator of claim C1 accepts — yet the source's
`isValidPosition` answers `false`, because it does enforce the lower
bound `boardY ≥ 0`. -/
theorem C1_lower_bound_counterexample :
    isValidPositionNoLowerBound createEmptyBoard { x := 3, y := -1 }
      (TETROMINOS .T) = true ∧
    isValidPosition createEmptyBoard { x := 3, y := -1 }
      (TETROMINOS .T) = false := by
  constructor <;> decide

/-- C1 (amended): `isValidPosition` enforces the lower bound `y ≥ 0` on
occupied cells as well: it accepts exactly when every occupied cell maps
into `[0, width) × [0, height)` — negative board rows included in the
rejection — onto an empty board cell; in particular any occupied cell
with a negative board row forces the answer `false`. -/
theorem validator_enforces_lower_bound (board : Board) (pos : Position)
    (shape : List (List Nat)) :
    (isValidPosition board pos shape = true ↔
      ∀ r, r < shape.length → ∀ c, c < (shape.getD r []).length →
        (shape.getD r []).getD c 0 ≠ 0 →
        0 ≤ pos.x + (c : Int) ∧
        pos.x + (c : Int) < ((board.getD 0 []).length : Int) ∧
        0 ≤ pos.y + (r : Int) ∧
        pos.y + (r : Int) < (board.length : Int) ∧
        (board.getD (pos.y + (r : Int)).toNat []).getD
          (pos.x + (c : Int)).toNat .empty = .empty) ∧
    (∀ r, r < shape.length → ∀ c, c < (shape.getD r []).length →
      (shape.getD r []).getD c 0 ≠ 0 → pos.y + (r : Int) < 0 →
      isValidPosition board pos shape = false) := by
  refine ⟨isValidPosition_eq_true_iff board pos shape, ?_⟩
  intro r hr c hc hcell hneg
  by_contra hne
  have htrue : isValidPosition board pos shape = true := by
    cases h : isValidPosition board pos shape
    · exact absurd h hne
    · rfl
  have := (isValidPosition_eq_true_iff board pos shape).mp htrue r hr c hc hcell
  omega

/-- C2: when `gameOver` is set, every action except `NEW_GAME` leaves
the state unchanged; when the game is paused (and not over), every
action outside `{RESUME_GAME, NEW_GAME}` leaves the state unchanged. -/
theorem gameReducer_gates (rt : Nat → TetrominoType) (state : GameState)
    (action : GameAction) :
    (state.gameOver = true → action ≠ .NEW_GAME →
      gameReducer rt state action = state) ∧
    (state.gameOver = false → state.isPaused = true →
      action ≠ .RESUME_GAME → action ≠ .NEW_GAME →
      gameReducer rt state action = state) := by
  constructor
  · intro hg hne
    rw [gameReducer.eq_def]
    simp [hg, hne]
  · intro hg hp hne1 hne2
    rw [gameReducer.eq_def]
    simp [hg, hp, hne1, hne2]

/-- C2 witness: a game-over state ignores `TICK`, and a paused state
ignores `MOVE_LEFT`. -/
theorem gameReducer_gates_witness :
    stateOver.gameOver = true ∧ statePaused.isPaused = true ∧
    gameReducer rtAllI stateOver .TICK = stateOver ∧
    gameReducer rtAllI statePaused .MOVE_LEFT = statePaused :=
  ⟨rfl, rfl,
    (gameReducer_gates rtAllI stateOver .TICK).1 rfl (by decide),
    (gameReducer_gates rtAllI statePaused .MOVE_LEFT).2 rfl rfl
      (by decide) (by decide)⟩

/-- C10: with no active piece (game neither over nor paused), each of
the seven piece-manipulating actions is a no-op. -/
theorem gameReducer_no_piece_noop (rt : Nat → TetrominoType)
    (state : GameState) (hg : state.gameOver = false)
    (hp : state.isPaused = false) (hc : state.currentPiece = none) :
    gameReducer rt state .MOVE_LEFT = state ∧
    gameReducer rt state .MOVE_RIGHT = state ∧
    gameReducer rt state .MOVE_DOWN = state ∧
    gameReducer rt state .TICK = state ∧
    gameReducer rt state .ROTATE = state ∧
    gameReducer rt state .HARD_DROP = state ∧
    gameReducer rt state .HOLD = state := by
  refine ⟨?_, ?_, ?_, ?_, ?_, ?_, ?_⟩ <;>
    · rw [gameReducer.eq_def]
      simp [hg, hp, hc, gameReducer]

lemma isFullRow_emptyRow : isFullRow emptyRow = false := by decide

lemma countP_add_countP_not {α : Type} (p : α → Bool) (l : List α) :
    l.countP p + l.countP (fun a => !p a) = l.length := by
  induction l with
  | nil => simp
  | cons a l ih =>
    simp only [List.countP_cons, List.length_cons]
    cases h : p a <;> simp [h] <;> omega

/-- Running the clear loop on `u ++ v` from the last index of `u`, when
every row of `v` has already been scanned: the loop replaces the
complete rows of `u` by empty rows prepended at the top, keeps the
incomplete rows of `u` in order, never touches `v`, and counts the
complete rows of `u`. -/
lemma clearLoop_append (fuel : Nat) : ∀ (u v : Board) (c : Nat),
    u.countP isFullRow + u.length < fuel →
    clearLoop fuel (u ++ v) ((u.length : Int) - 1) c =
      (List.replicate (u.countP isFullRow) emptyRow ++
        u.filter (fun r => !isFullRow r) ++ v,
       c + u.countP isFullRow) := by
  induction fuel with
  | zero => intro u v c h; omega
  | succ f ih =>
    intro u v c h
    rcases u.eq_nil_or_concat with rfl | ⟨w, r, rfl⟩
    · simp [clearLoop]
    · rw [List.concat_eq_append] at h ⊢
      have hcnt : (w ++ [r]).countP isFullRow =
          w.countP isFullRow + if isFullRow r then 1 else 0 := by
        simp [List.countP_append, List.countP_cons]
      have hlen : (w ++ [r]).length = w.length + 1 := by simp
      have hy : (((w ++ [r]).length : Nat) : Int) - 1 = (w.length : Int) := by
        simp [hlen]
      rw [hy]
      rw [show ((w ++ [r]) ++ v) = w ++ ([r] ++ v) by simp]
      have hget : (w ++ ([r] ++ v)).getD w.length [] = r := by
        rw [List.getD_append_right _ _ _ _ (le_refl _)]
        simp
      have htonat : ((w.length : Int)).toNat = w.length := rfl
      simp only [clearLoop, htonat, hget]
      rw [if_neg (by omega)]
      cases hr : isFullRow r with
      | true =>
        rw [if_pos rfl]
        have htake : (w ++ ([r] ++ v)).take w.length = w := List.take_left w _
        have hdrop : (w ++ ([r] ++ v)).drop (w.length + 1) = v := by
          have : (w ++ ([r] ++ v)) = (w ++ [r]) ++ v := by simp
          rw [this, show w.length + 1 = (w ++ [r]).length by simp]
          exact List.drop_left _ _
        rw [htake, hdrop]
        have hrec := ih (emptyRow :: w) v (c + 1) (by
          rw [hcnt, hr, hlen] at h
          have : (emptyRow :: w).countP isFullRow = w.countP isFullRow := by
            simp [List.countP_cons, isFullRow_emptyRow]
          rw [this]
          simp only [List.length_cons]
          simp at h
          omega)
        rw [show (w.length : Int) = (((emptyRow :: w).length : Nat) : Int) - 1
          by simp]
        rw [show emptyRow :: (w ++ v) = (emptyRow :: w) ++ v from rfl]
        rw [hrec]
        have hfil : (emptyRow :: w).filter (fun r => !isFullRow r) =
            emptyRow :: w.filter (fun r => !isFullRow r) := by
          simp [List.filter_cons, isFullRow_emptyRow]
        have hfil2 : (w ++ [r]).filter (fun r => !isFullRow r) =
            w.filter (fun r => !isFullRow r) := by
          simp [List.filter_append, List.filter_cons, hr]
        have hcnt2 : (emptyRow :: w).countP isFullRow = w.countP isFullRow := by
          simp [List.countP_cons, isFullRow_emptyRow]
        rw [hfil, hfil2, hcnt2, hcnt, hr]
        have h1 : List.countP isFullRow w + (if (true : Bool) = true then 1 else 0)
            = List.countP isFullRow w + 1 := by simp
        rw [h1, List.replicate_succ']
        simp only [Prod.mk.injEq]
        refine ⟨by simp [List.append_assoc], by omega⟩
      | false =>
        rw [if_neg (by simp [hr])]
        have hrec := ih w ([r] ++ v) c (by
          rw [hcnt, hr] at h
          simp at h
          omega)
        rw [show (w.length : Int) - 1 = (((w.length : Nat) : Int)) - 1 from rfl]
        rw [hrec]
        have hfil2 : (w ++ [r]).filter (fun r => !isFullRow r) =
            w.filter (fun r => !isFullRow r) ++ [r] := by
          simp [List.filter_append, List.filter_cons, hr]
        rw [hcnt, hr, hfil2]
        simp

/-- `clearLines` on a 20-row board equals the batch specification:
prepend one empty row per complete row and keep the incomplete rows. -/
lemma clearLines_eq_batch (board : Board) (h : board.length = BOARD_HEIGHT) :
    clearLines board =
      (List.replicate (board.countP isFullRow) emptyRow ++
        board.filter (fun r => !isFullRow r),
       board.countP isFullRow) := by
  have hle : board.countP isFullRow ≤ board.length := List.countP_le_length _
  have h20 : board.length = 20 := by simpa [BOARD_HEIGHT] using h
  have := clearLoop_append (2 * BOARD_HEIGHT + 1) board [] 0 (by
    simp only [BOARD_HEIGHT]
    omega)
  rw [List.append_nil] at this
  rw [clearLines, show ((BOARD_HEIGHT : Int) - 1) = ((board.length : Nat) : Int) - 1 by rw [h], this]
  simp

/-- C4: on every 20×10 board the bottom-to-top scan-and-recheck
`clearLines` is extensionally the batch specification: the count is the
number of complete rows, the board is the incomplete rows in order with
that many empty rows prepended, and the dimensions are unchanged. -/
theorem clearLines_eq_batch_spec (board : Board)
    (h20 : board.length = 20) (h10 : ∀ row ∈ board, row.length = 10) :
    clearLines board =
      (List.replicate (board.countP isFullRow) emptyRow ++
        board.filter (fun r => !isFullRow r),
       board.countP isFullRow) ∧
    (clearLines board).1.length = 20 ∧
    (∀ row ∈ (clearLines board).1, row.length = 10) := by
  have hmain := clearLines_eq_batch board (by simpa [BOARD_HEIGHT] using h20)
  refine ⟨hmain, ?_, ?_⟩
  · rw [hmain]
    simp only [List.length_append, List.length_replicate]
    have hf : (board.filter (fun r => !isFullRow r)).length =
        board.countP (fun r => !isFullRow r) :=
      (board.countP_eq_length_filter _).symm
    have hsum := countP_add_countP_not isFullRow board
    omega
  · rw [hmain]
    intro row hrow
    rcases List.mem_append.mp hrow with hmem | hmem
    · rw [List.eq_of_mem_replicate hmem]
      simp [emptyRow, BOARD_WIDTH]
    · exact h10 row (List.mem_of_mem_filter hmem)


lemma stampRow_none_iff (type : TetrominoType) :
    ∀ (row : List Nat) (b : Board) (bx yb : Int),
      stampRow type b row bx yb = none ↔
        (yb < 0 ∧ row.any (fun cell => cell ≠ 0) = true) := by
  intro row
  induction row with
  | nil => intro b bx yb; simp [stampRow]
  | cons cell rest ih =>
    intro b bx yb
    by_cases hc : cell ≠ 0
    · rw [stampRow, if_pos hc]
      by_cases hy : yb < 0
      · rw [if_pos hy]
        simp [hy, hc]
      · rw [if_neg hy]
        rw [ih]
        simp [hy]
    · rw [stampRow, if_neg hc]
      rw [ih]
      push_neg at hc
      simp [hc]

lemma stampRows_none_iff (type : TetrominoType) :
    ∀ (shape : List (List Nat)) (b : Board) (px py : Int),
      stampRows type b shape px py = none ↔
        pieceAboveBoard shape py = true := by
  intro shape
  induction shape with
  | nil => intro b px py; simp [stampRows, pieceAboveBoard]
  | cons row rs ih =>
    intro b px py
    rw [stampRows]
    cases hsr : stampRow type b row px py with
    | none =>
      rw [stampRow_none_iff] at hsr
      simp only [pieceAboveBoard, List.any_eq_true, List.mem_range]
      constructor
      · intro _
        exact ⟨0, by simp, by simpa using hsr⟩
      · intro _; trivial
    | some b' =>
      have hnot : ¬ (py < 0 ∧
          (row.any fun cell => decide (cell ≠ 0)) = true) := by
        intro hcontra
        have hn := (stampRow_none_iff type row b px py).mpr (by
          simpa using hcontra)
        rw [hn] at hsr
        cases hsr
      show stampRows type b' rs px (py + 1) = none ↔ _
      rw [ih]
      simp only [pieceAboveBoard, List.any_eq_true, List.mem_range]
      constructor
      · rintro ⟨r, hr, hcond⟩
        refine ⟨r + 1, by simpa using Nat.succ_lt_succ hr, ?_⟩
        simp only [List.getD_cons_succ]
        have : py + ((r : Int) + 1) < 0 := by
          have := (Bool.and_eq_true _ _).mp hcond
          have h1 := of_decide_eq_true this.1
          omega
        simp only [Bool.and_eq_true, decide_eq_true_eq]
        refine ⟨by push_cast; omega, ?_⟩
        exact ((Bool.and_eq_true _ _).mp hcond).2
      · rintro ⟨r, hr, hcond⟩
        rw [Bool.and_eq_true, decide_eq_true_eq] at hcond
        match r, hr with
        | 0, _ =>
          exact absurd ⟨by simpa using hcond.1, by simpa using hcond.2⟩ hnot
        | r' + 1, hr' =>
          refine ⟨r', by simpa using Nat.lt_of_succ_lt_succ hr', ?_⟩
          rw [Bool.and_eq_true, decide_eq_true_eq]
          refine ⟨by push_cast at hcond; omega, ?_⟩
          simpa using hcond.2


/-- C4 witness: on the concrete board with two complete bottom rows the
hypotheses hold and `clearLines` produces the batch result. -/
theorem clearLines_eq_batch_spec_witness :
    boardTwoFull.length = 20 ∧
    (clearLines boardTwoFull =
      (List.replicate (boardTwoFull.countP isFullRow) emptyRow ++
        boardTwoFull.filter (fun r => !isFullRow r),
       boardTwoFull.countP isFullRow) ∧
    (clearLines boardTwoFull).1.length = 20 ∧
    (∀ row ∈ (clearLines boardTwoFull).1, row.length = 10)) :=
  ⟨by decide, clearLines_eq_batch_spec boardTwoFull (by decide) (by decide)⟩

/-- C10 witness: a piece-less playing state ignores `HOLD` (and the
hypotheses are satisfiable). -/
theorem gameReducer_no_piece_noop_witness :
    stateNoPiece.currentPiece = none ∧
    gameReducer rtAllI stateNoPiece .HOLD = stateNoPiece :=
  ⟨rfl, (gameReducer_no_piece_noop rtAllI stateNoPiece rfl rfl
    rfl).2.2.2.2.2.2⟩


/-- C3: when the lock step completes normally (the stamping phase
succeeds, producing `newBoard`), the score grows by
`POINTS_PER_LINE[linesCleared] * level` with the pre-lock level, the
line total grows by `linesCleared`, and the level becomes
`newLines / 10 + 1`; moreover `MOVE_DOWN` and `TICK` reach the lock step
exactly when one more row down is invalid, and `HARD_DROP` locks at the
drop-search position. -/
theorem lock_scoring (rt : Nat → TetrominoType) (state : GameState)
    (p : Tetromino) (newBoard : Board)
    (hp : state.currentPiece = some p)
    (hstamp : stampRows p.type state.board p.shape p.position.x
      p.position.y = some newBoard)
    (hn4 : (clearLines newBoard).2 ≤ 4) :
    ((lockPieceAndContinue rt state).score =
      state.score + POINTS_PER_LINE.getD (clearLines newBoard).2 0 *
        state.level ∧
     (lockPieceAndContinue rt state).lines =
      state.lines + (clearLines newBoard).2 ∧
     (lockPieceAndContinue rt state).level =
      (state.lines + (clearLines newBoard).2) / 10 + 1) ∧
    (state.gameOver = false → state.isPaused = false →
      isValidPosition state.board { p.position with y := p.position.y + 1 }
        p.shape = false →
      gameReducer rt state .MOVE_DOWN = lockPieceAndContinue rt state ∧
      gameReducer rt state .TICK = lockPieceAndContinue rt state) ∧
    (state.gameOver = false → state.isPaused = false →
      gameReducer rt state .HARD_DROP = lockPieceAndContinue rt
        { state with currentPiece := some { p with position :=
          { p.position with y := (dropLoop state.board p.position p.shape
              (dropFuel state.board p.position.y) p.position.y) } } }) := by
  refine ⟨?_, ?_, ?_⟩
  · simp only [lockPieceAndContinue, hp, hstamp]
    simp
  · intro hg hpa hinv
    constructor
    · rw [gameReducer.eq_def]
      simp [hg, hpa, hp, hinv]
    · rw [gameReducer.eq_def]
      simp only [hg, hpa]
      rw [gameReducer.eq_def]
      simp [hg, hpa, hp, hinv]
  · intro hg hpa
    rw [gameReducer.eq_def]
    simp [hg, hpa, hp]

/-- C3 witness: locking the T piece at `(3, 18)` completes the bottom
row, clearing one line and adding `40 * level` points. -/
theorem lock_scoring_witness :
    stateLock.currentPiece = some pieceTLow ∧
    stampRows pieceTLow.type stateLock.board pieceTLow.shape
      pieceTLow.position.x pieceTLow.position.y = some stampedWitnessBoard ∧
    (clearLines stampedWitnessBoard).2 ≤ 4 ∧
    ((lockPieceAndContinue rtAllI stateLock).score =
      stateLock.score + POINTS_PER_LINE.getD
        (clearLines stampedWitnessBoard).2 0 * stateLock.level ∧
     (lockPieceAndContinue rtAllI stateLock).lines =
      stateLock.lines + (clearLines stampedWitnessBoard).2 ∧
     (lockPieceAndContinue rtAllI stateLock).level =
      (stateLock.lines + (clearLines stampedWitnessBoard).2) / 10 + 1) :=
  ⟨rfl, by decide, by decide,
    (lock_scoring rtAllI stateLock pieceTLow stampedWitnessBoard rfl
      (by decide) (by decide)).1⟩

/-- C7: a lock with an occupied cell above row 0 only sets `gameOver`,
leaving every other field untouched; any other lock sets `gameOver` to
"top row of the cleared board is non-empty" OR-ed with the prior flag. -/
theorem lock_game_over_flag (rt : Nat → TetrominoType) (state : GameState)
    (p : Tetromino) (hp : state.currentPiece = some p) :
    (pieceAboveBoard p.shape p.position.y = true →
      lockPieceAndContinue rt state = { state with gameOver := true }) ∧
    (pieceAboveBoard p.shape p.position.y = false →
      ∃ b', stampRows p.type state.board p.shape p.position.x
          p.position.y = some b' ∧
        (lockPieceAndContinue rt state).gameOver =
          (((clearLines b').1.getD 0 []).any (fun cell => cell ≠ .empty)
            || state.gameOver)) := by
  constructor
  · intro habove
    have hnone : stampRows p.type state.board p.shape p.position.x
        p.position.y = none :=
      (stampRows_none_iff p.type p.shape state.board p.position.x
        p.position.y).mpr habove
    simp only [lockPieceAndContinue, hp, hnone]
  · intro hbelow
    cases hs : stampRows p.type state.board p.shape p.position.x
        p.position.y with
    | none =>
      rw [stampRows_none_iff] at hs
      rw [hs] at hbelow
      cases hbelow
    | some b' =>
      refine ⟨b', rfl, ?_⟩
      simp only [lockPieceAndContinue, hp, hs]

/-- C7 witness: the T piece at `(3, -1)` locks to an immediate game
over with all other fields kept, while the T piece at `(3, 18)` locks
normally and the flag comes from the top-row check. -/
theorem lock_game_over_flag_witness :
    pieceAboveBoard pieceTAbove.shape pieceTAbove.position.y = true ∧
    lockPieceAndContinue rtAllI stateAbove =
      { stateAbove with gameOver := true } ∧
    pieceAboveBoard pieceTLow.shape pieceTLow.position.y = false ∧
    (∃ b', stampRows pieceTLow.type stateLock.board pieceTLow.shape
        pieceTLow.position.x pieceTLow.position.y = some b' ∧
      (lockPieceAndContinue rtAllI stateLock).gameOver =
        (((clearLines b').1.getD 0 []).any (fun cell => cell ≠ .empty)
          || stateLock.gameOver)) :=
  ⟨by decide,
    (lock_game_over_flag rtAllI stateAbove pieceTAbove rfl).1 (by decide),
    by decide,
    (lock_game_over_flag rtAllI stateLock pieceTLow rfl).2 (by decide)⟩

lemma tryKicks_eq_find (state : GameState) (p : Tetromino)
    (rs : List (List Nat)) : ∀ ks : List Int,
    tryKicks state p rs ks =
      match ks.find? (fun k => isValidPosition state.board
          { p.position with x := p.position.x + k } rs) with
      | some k => { state with currentPiece := some { p with
          shape := rs
          position := { p.position with x := p.position.x + k }
          rotation := (p.rotation + 1) % 4 } }
      | none => state := by
  intro ks
  induction ks with
  | nil => rfl
  | cons k rest ih =>
    rw [tryKicks]
    cases hk : isValidPosition state.board
        { p.position with x := p.position.x + k } rs with
    | true =>
      have hfind : List.find? (fun k2 : Int => isValidPosition state.board
          { p.position with x := p.position.x + k2 } rs) (k :: rest) =
          some k := List.find?_cons_of_pos _ hk
      rw [hfind]
      simp
    | false =>
      have hfind : List.find? (fun k2 : Int => isValidPosition state.board
          { p.position with x := p.position.x + k2 } rs) (k :: rest) =
          List.find? (fun k2 : Int => isValidPosition state.board
            { p.position with x := p.position.x + k2 } rs) rest :=
        List.find?_cons_of_neg _ (by simp [hk])
      rw [hfind]
      simp [ih]

/-- C5: `ROTATE` computes the clockwise image (identity for the O
piece, `(row, col) ↦ (col, size-1-row)` otherwise), keeps the position
and advances the rotation counter when the rotated shape validates in
place, otherwise adopts the first of the offsets `+1, -1, +2, -2` at
which it validates, and leaves the state unchanged when none does. -/
theorem rotate_action (rt : Nat → TetrominoType) (state : GameState)
    (p : Tetromino) (hg : state.gameOver = false)
    (hpa : state.isPaused = false) (hp : state.currentPiece = some p) :
    (p.type = .O → rotateTetromino p = p.shape) ∧
    (p.type ≠ .O → ∀ row col, row < p.shape.length →
      col < p.shape.length →
      ((rotateTetromino p).getD col []).getD
        (p.shape.length - 1 - row) 0 = (p.shape.getD row []).getD col 0) ∧
    (isValidPosition state.board p.position (rotateTetromino p) = true →
      gameReducer rt state .ROTATE =
        { state with currentPiece := some { p with
            shape := rotateTetromino p,
            rotation := (p.rotation + 1) % 4 } }) ∧
    (isValidPosition state.board p.position (rotateTetromino p) = false →
      gameReducer rt state .ROTATE =
        match ([1, -1, 2, -2] : List Int).find?
            (fun k => isValidPosition state.board
              { p.position with x := p.position.x + k }
              (rotateTetromino p)) with
        | some k => { state with currentPiece := some { p with
            shape := rotateTetromino p,
            position := { p.position with x := p.position.x + k },
            rotation := (p.rotation + 1) % 4 } }
        | none => state) := by
  refine ⟨?_, ?_, ?_, ?_⟩
  · intro hO
    rw [rotateTetromino, if_pos hO]
  · intro hO row col hr hc
    have hsz : 0 < p.shape.length := by omega
    have hidx : p.shape.length - 1 - row < p.shape.length := by omega
    have hrot : rotateTetromino p = (List.range p.shape.length).map
        (fun r => (List.range p.shape.length).map (fun c =>
          (p.shape.getD (p.shape.length - 1 - c) []).getD r 0)) := by
      rw [rotateTetromino, if_neg hO]
    have h1 : (rotateTetromino p).getD col [] =
        (List.range p.shape.length).map (fun c =>
          (p.shape.getD (p.shape.length - 1 - c) []).getD col 0) := by
      rw [hrot, List.getD_eq_getElem _ _ (by simpa using hc),
        List.getElem_map, List.getElem_range]
    have h2 : ((List.range p.shape.length).map (fun c =>
        (p.shape.getD (p.shape.length - 1 - c) []).getD col 0)).getD
          (p.shape.length - 1 - row) 0 =
        (p.shape.getD (p.shape.length - 1 - (p.shape.length - 1 - row))
          []).getD col 0 := by
      rw [List.getD_eq_getElem _ _ (by simpa using hidx),
        List.getElem_map, List.getElem_range]
    rw [h1, h2, show p.shape.length - 1 - (p.shape.length - 1 - row) = row
      by omega]
  · intro hvalid
    rw [gameReducer.eq_def]
    simp [hg, hpa, hp, hvalid]
  · intro hinvalid
    rw [gameReducer.eq_def]
    simp [hg, hpa, hp, hinvalid, tryKicks_eq_find]

/-- C5 witness: rotating the freshly spawned I piece on the empty board
succeeds in place. -/
theorem rotate_action_witness :
    statePlaying.currentPiece = some (randomTetromino .I) ∧
    isValidPosition statePlaying.board (randomTetromino .I).position
      (rotateTetromino (randomTetromino .I)) = true ∧
    gameReducer rtAllI statePlaying .ROTATE =
      { statePlaying with currentPiece := some { randomTetromino .I with
          shape := rotateTetromino (randomTetromino .I),
          rotation := ((randomTetromino .I).rotation + 1) % 4 } } :=
  ⟨rfl, by decide,
    (rotate_action rtAllI statePlaying (randomTetromino .I) rfl rfl
      rfl).2.2.1 (by decide)⟩

/-- C6: a first `HOLD` stores the active type and advances the pipeline
without touching the board; a `HOLD` with a piece already held spawns
the held type at its canonical position (rotation 0, base shape,
`x = 4` for O else `3`, `y = 0`), ends the game if that placement is
invalid, and otherwise swaps it in, leaving queue and board untouched. -/
theorem hold_action (rt : Nat → TetrominoType) (state : GameState)
    (p : Tetromino) (hg : state.gameOver = false)
    (hpa : state.isPaused = false) (hp : state.currentPiece = some p) :
    (state.heldPiece = none →
      gameReducer rt state .HOLD = { state with
        heldPiece := some p.type,
        currentPiece := state.nextPiece,
        nextPiece := state.nextPieces.head?,
        nextPieces := state.nextPieces.tail ++
          [randomTetromino (rt 0)] }) ∧
    (∀ t, state.heldPiece = some t →
      (randomTetromino t).rotation = 0 ∧
      (randomTetromino t).shape = TETROMINOS t ∧
      (randomTetromino t).position =
        { x := if t = .O then 4 else 3, y := 0 } ∧
      (isValidPosition state.board (randomTetromino t).position
          (randomTetromino t).shape = false →
        gameReducer rt state .HOLD = { state with gameOver := true }) ∧
      (isValidPosition state.board (randomTetromino t).position
          (randomTetromino t).shape = true →
        gameReducer rt state .HOLD = { state with
          heldPiece := some p.type,
          currentPiece := some (randomTetromino t) })) := by
  constructor
  · intro hheld
    rw [gameReducer.eq_def]
    simp [hg, hpa, hp, hheld]
  · intro t hheld
    refine ⟨rfl, rfl, rfl, ?_, ?_⟩
    · intro hinvalid
      have h2 : isValidPosition state.board
          { x := if t = TetrominoType.O then 4 else 3, y := 0 }
          (randomTetromino t).shape = false := hinvalid
      rw [gameReducer.eq_def]
      simp [hg, hpa, hp, hheld, h2]
    · intro hvalid
      have h2 : isValidPosition state.board
          { x := if t = TetrominoType.O then 4 else 3, y := 0 }
          (randomTetromino t).shape = true := hvalid
      rw [gameReducer.eq_def]
      simp [hg, hpa, hp, hheld, h2]
      rfl


/-- C6 witness: a first hold on the fresh state advances the pipeline;
a hold with O held swaps the O piece in at its canonical spawn. -/
theorem hold_action_witness :
    statePlaying.heldPiece = none ∧
    gameReducer rtAllI statePlaying .HOLD = { statePlaying with
      heldPiece := some (randomTetromino .I).type,
      currentPiece := statePlaying.nextPiece,
      nextPiece := statePlaying.nextPieces.head?,
      nextPieces := statePlaying.nextPieces.tail ++
        [randomTetromino (rtAllI 0)] } ∧
    stateHeldO.heldPiece = some .O ∧
    gameReducer rtAllI stateHeldO .HOLD = { stateHeldO with
      heldPiece := some (randomTetromino .I).type,
      currentPiece := some (randomTetromino .O) } :=
  ⟨rfl,
    (hold_action rtAllI statePlaying (randomTetromino .I) rfl rfl rfl).1 rfl,
    rfl,
    ((hold_action rtAllI stateHeldO (randomTetromino .I) rfl rfl rfl).2
      .O rfl).2.2.2.2 (by decide)⟩

lemma dropLoop_le (board : Board) (pos : Position)
    (shape : List (List Nat)) : ∀ (fuel : Nat) (y : Int),
    y ≤ dropLoop board pos shape fuel y := by
  intro fuel
  induction fuel with
  | zero => intro y; rw [dropLoop]
  | succ f ih =>
    intro y
    rw [dropLoop]
    by_cases h : isValidPosition board { pos with y := y + 1 } shape = true
    · rw [if_pos h]
      exact le_trans (by omega) (ih (y + 1))
    · rw [if_neg h]

/-- If an occupied shape cell's row lands at or below the board's
bottom, the validator rejects. -/
lemma isValid_false_of_overflow (board : Board) (pos : Position)
    (shape : List (List Nat)) (r : Nat) (hr : r < shape.length)
    (hocc : (shape.getD r []).any (fun c => c ≠ 0) = true)
    (hy : (board.length : Int) ≤ pos.y + (r : Int)) :
    isValidPosition board pos shape = false := by
  by_contra hne
  have htrue : isValidPosition board pos shape = true := by
    cases h : isValidPosition board pos shape
    · exact absurd h hne
    · rfl
  rw [List.any_eq_true] at hocc
  obtain ⟨x, hxmem, hx⟩ := hocc
  obtain ⟨i, hi, hix⟩ := List.mem_iff_getElem.mp hxmem
  have hcell : (shape.getD r []).getD i 0 ≠ 0 := by
    rw [List.getD_eq_getElem _ _ hi, hix]
    exact of_decide_eq_true hx
  have := (isValidPosition_eq_true_iff board pos shape).mp htrue r hr i hi
    hcell
  omega

lemma dropLoop_invalid (board : Board) (pos : Position)
    (shape : List (List Nat)) (r : Nat) (hr : r < shape.length)
    (hocc : (shape.getD r []).any (fun c => c ≠ 0) = true) :
    ∀ (fuel : Nat) (y : Int), (board.length : Int) < y + fuel →
    isValidPosition board
      { pos with y := dropLoop board pos shape fuel y + 1 } shape = false := by
  intro fuel
  induction fuel with
  | zero =>
    intro y hy
    rw [dropLoop]
    exact isValid_false_of_overflow board _ shape r hr hocc (by
      simp only []
      have : (0 : Int) ≤ (r : Int) := Int.natCast_nonneg r
      omega)
  | succ f ih =>
    intro y hy
    rw [dropLoop]
    by_cases h : isValidPosition board { pos with y := y + 1 } shape = true
    · rw [if_pos h]
      exact ih (y + 1) (by push_cast at hy ⊢; omega)
    · rw [if_neg h]
      simpa using h

lemma dropLoop_steps (board : Board) (pos : Position)
    (shape : List (List Nat)) : ∀ (fuel : Nat) (y z : Int), y < z →
    z ≤ dropLoop board pos shape fuel y →
    isValidPosition board { pos with y := z } shape = true := by
  intro fuel
  induction fuel with
  | zero => intro y z h1 h2; rw [dropLoop] at h2; omega
  | succ f ih =>
    intro y z h1 h2
    rw [dropLoop] at h2
    by_cases h : isValidPosition board { pos with y := y + 1 } shape = true
    · rw [if_pos h] at h2
      rcases eq_or_lt_of_le (by omega : y + 1 ≤ z) with heq | hlt
      · rw [← heq]; exact h
      · exact ih (y + 1) z hlt h2
    · rw [if_neg h] at h2
      omega

/-- C9: the shadow projector returns `none` exactly when there is no
active piece; otherwise it returns a copy of the active piece (same
type, shape, rotation and column) moved down to the last row reachable
through validator-approved single steps — every intermediate step
validates and (for any piece with an occupied cell) one further step
does not.  The projector is a pure function: repeated calls agree. -/
theorem shadow_projection (state : GameState) :
    (calculateShadowPosition state = none ↔ state.currentPiece = none) ∧
    (∀ p, state.currentPiece = some p →
      ∃ q, calculateShadowPosition state = some q ∧
        q.type = p.type ∧ q.shape = p.shape ∧ q.rotation = p.rotation ∧
        q.position.x = p.position.x ∧ p.position.y ≤ q.position.y ∧
        (∀ z, p.position.y < z → z ≤ q.position.y →
          isValidPosition state.board { p.position with y := z }
            p.shape = true) ∧
        ((∃ r, r < p.shape.length ∧
            (p.shape.getD r []).any (fun c => c ≠ 0) = true) →
          isValidPosition state.board
            { p.position with y := q.position.y + 1 } p.shape = false)) ∧
    calculateShadowPosition state = calculateShadowPosition state := by
  refine ⟨?_, ?_, rfl⟩
  · cases hcp : state.currentPiece with
    | none => simp [calculateShadowPosition, hcp]
    | some p => simp [calculateShadowPosition, hcp]
  · intro p hp
    refine ⟨{ p with position := { p.position with
        y := dropLoop state.board p.position p.shape
          (dropFuel state.board p.position.y) p.position.y } },
      ?_, rfl, rfl, rfl, rfl, ?_, ?_, ?_⟩
    · rw [calculateShadowPosition, hp]
    · exact dropLoop_le state.board p.position p.shape _ p.position.y
    · intro z h1 h2
      exact dropLoop_steps state.board p.position p.shape _ p.position.y z
        h1 h2
    · rintro ⟨r, hr, hocc⟩
      refine dropLoop_invalid state.board p.position p.shape r hr hocc _
        p.position.y ?_
      simp only [dropFuel]
      push_cast
      rcases le_or_lt 0 p.position.y with hy | hy
      · rw [Int.toNat_of_nonpos (by omega)]
        omega
      · rw [Int.toNat_of_nonneg (by omega)]
        omega

/-- C9 witness: the fresh I piece on the empty board projects to a
well-defined shadow with all the stated properties. -/
theorem shadow_projection_witness :
    statePlaying.currentPiece = some (randomTetromino .I) ∧
    ∃ q, calculateShadowPosition statePlaying = some q ∧
      q.type = (randomTetromino .I).type ∧
      q.shape = (randomTetromino .I).shape ∧
      q.rotation = (randomTetromino .I).rotation ∧
      q.position.x = (randomTetromino .I).position.x ∧
      (randomTetromino .I).position.y ≤ q.position.y :=
  ⟨rfl, by
    obtain ⟨q, h1, h2, h3, h4, h5, h6, -, -⟩ :=
      (shadow_projection statePlaying).2.1 (randomTetromino .I) rfl
    exact ⟨q, h1, h2, h3, h4, h5, h6⟩⟩


lemma setCell_dims (b : Board) (y x : Int) (v : CellValue)
    (hrows : ∀ row ∈ b, row.length = 10) (hx : x < 10) :
    (setCell b y x v).length = b.length ∧
    (∀ row ∈ setCell b y x v, row.length = 10) := by
  rw [setCell]
  by_cases hneg : x < 0
  · rw [if_pos hneg]
    exact ⟨rfl, hrows⟩
  · rw [if_neg hneg]
    have hxnat : x.toNat < 10 := by
      have h0 := Int.toNat_of_nonneg (by omega : (0 : Int) ≤ x)
      omega
    by_cases hy : y.toNat < b.length
    · have hrowlen : (b.getD y.toNat []).length = 10 := by
        rw [List.getD_eq_getElem _ _ hy]
        exact hrows _ (List.getElem_mem hy)
      rw [if_pos (by rw [hrowlen]; exact hxnat)]
      refine ⟨List.length_set _ _ _, ?_⟩
      intro row hrow
      rcases List.mem_or_eq_of_mem_set hrow with hmem | rfl
      · exact hrows _ hmem
      · rw [List.length_set]
        exact hrowlen
    · have hid : ∀ r2 : List CellValue, b.set y.toNat r2 = b :=
        fun r2 => List.set_eq_of_length_le (by omega)
      by_cases hxlt : x.toNat < (b.getD y.toNat []).length
      · rw [if_pos hxlt, hid]
        exact ⟨rfl, hrows⟩
      · rw [if_neg hxlt, hid]
        exact ⟨rfl, hrows⟩

lemma stampRow_dims (type : TetrominoType) :
    ∀ (row : List Nat) (b : Board) (bx yb : Int) (b' : Board),
      stampRow type b row bx yb = some b' →
      (∀ r ∈ b, r.length = 10) →
      (∀ i, i < row.length → row.getD i 0 ≠ 0 → bx + (i : Int) < 10) →
      b'.length = b.length ∧ (∀ r ∈ b', r.length = 10) := by
  intro row
  induction row with
  | nil =>
    intro b bx yb b' hs hrows _
    rw [stampRow] at hs
    cases hs
    exact ⟨rfl, hrows⟩
  | cons cell rest ih =>
    intro b bx yb b' hs hrows hrange
    rw [stampRow] at hs
    have hrange' : ∀ i, i < rest.length → rest.getD i 0 ≠ 0 →
        bx + 1 + (i : Int) < 10 := by
      intro i hi hcell
      have := hrange (i + 1) (by simpa using Nat.succ_lt_succ hi)
        (by simpa using hcell)
      push_cast at this ⊢
      omega
    by_cases hc : cell ≠ 0
    · rw [if_pos hc] at hs
      by_cases hy : yb < 0
      · rw [if_pos hy] at hs; cases hs
      · rw [if_neg hy] at hs
        have hbx : bx < 10 := by
          have := hrange 0 (by simp) (by simpa using hc)
          simpa using this
        obtain ⟨hlen, hr⟩ := setCell_dims b yb bx (.fill type) hrows hbx
        obtain ⟨hlen', hr'⟩ := ih _ _ _ _ hs hr hrange'
        exact ⟨by rw [hlen', hlen], hr'⟩
    · rw [if_neg hc] at hs
      exact ih _ _ _ _ hs hrows hrange'

lemma stampRows_dims (type : TetrominoType) :
    ∀ (shape : List (List Nat)) (b : Board) (px py : Int) (b' : Board),
      stampRows type b shape px py = some b' →
      (∀ r ∈ b, r.length = 10) →
      (∀ r, r < shape.length → ∀ c, c < (shape.getD r []).length →
        (shape.getD r []).getD c 0 ≠ 0 → px + (c : Int) < 10) →
      b'.length = b.length ∧ (∀ r ∈ b', r.length = 10) := by
  intro shape
  induction shape with
  | nil =>
    intro b px py b' hs hrows _
    rw [stampRows] at hs
    cases hs
    exact ⟨rfl, hrows⟩
  | cons row rs ih =>
    intro b px py b' hs hrows hrange
    rw [stampRows] at hs
    cases hsr : stampRow type b row px py with
    | none => rw [hsr] at hs; cases hs
    | some b2 =>
      rw [hsr] at hs
      obtain ⟨hlen2, hr2⟩ := stampRow_dims type row b px py b2 hsr hrows
        (by
          intro i hi hcell
          exact hrange 0 (by simp) i (by simpa using hi)
            (by simpa using hcell))
      obtain ⟨hlen', hr'⟩ := ih _ _ _ _ hs hr2 (by
        intro r hr c hc hcell
        exact hrange (r + 1) (by simpa using Nat.succ_lt_succ hr) c
          (by simpa using hc) (by simpa using hcell))
      exact ⟨by rw [hlen', hlen2], hr'⟩

lemma clearLines_dims (board : Board) (h20 : board.length = 20)
    (h10 : ∀ row ∈ board, row.length = 10) :
    (clearLines board).1.length = 20 ∧
    (∀ row ∈ (clearLines board).1, row.length = 10) := by
  have hmain := clearLines_eq_batch board (by simpa [BOARD_HEIGHT] using h20)
  constructor
  · rw [hmain]
    simp only [List.length_append, List.length_replicate]
    have hf : (board.filter (fun r => !isFullRow r)).length =
        board.countP (fun r => !isFullRow r) :=
      (board.countP_eq_length_filter _).symm
    have hsum := countP_add_countP_not isFullRow board
    omega
  · rw [hmain]
    intro row hrow
    rcases List.mem_append.mp hrow with hmem | hmem
    · rw [List.eq_of_mem_replicate hmem]
      simp [emptyRow, BOARD_WIDTH]
    · exact h10 row (List.mem_of_mem_filter hmem)

lemma initGameState_wf (rt : Nat → TetrominoType) :
    WellFormedState (initGameState rt) := by
  refine ⟨by simp [initGameState, createEmptyBoard, BOARD_HEIGHT], ?_, rfl⟩
  intro row hrow
  rw [List.eq_of_mem_replicate hrow]
  simp [BOARD_WIDTH]

lemma valid_writes_in_range (board : Board) (pos : Position)
    (shape : List (List Nat)) (hb : board.length = 20)
    (hrows : ∀ row ∈ board, row.length = 10)
    (hv : isValidPosition board pos shape = true) :
    pieceWritesInRange shape pos.x pos.y := by
  intro r hr c hc hcell
  have hw : (board.getD 0 []).length = 10 := by
    have h0 : 0 < board.length := by omega
    rw [List.getD_eq_getElem _ _ h0]
    exact hrows _ (List.getElem_mem h0)
  have := (isValidPosition_eq_true_iff board pos shape).mp hv r hr c hc hcell
  rw [hw, hb] at this
  constructor
  · simpa [BOARD_WIDTH] using this.2.1
  · simpa [BOARD_HEIGHT] using this.2.2.2.1

lemma dropLoop_writes_in_range (board : Board) (pos : Position)
    (shape : List (List Nat)) (hb : board.length = 20)
    (hrows : ∀ row ∈ board, row.length = 10) :
    ∀ (fuel : Nat) (y : Int), pieceWritesInRange shape pos.x y →
      pieceWritesInRange shape pos.x (dropLoop board pos shape fuel y) := by
  intro fuel
  induction fuel with
  | zero =>
    intro y hy
    rw [dropLoop]
    exact hy
  | succ f ih =>
    intro y hy
    rw [dropLoop]
    by_cases hv : isValidPosition board { pos with y := y + 1 } shape = true
    · rw [if_pos hv]
      exact ih (y + 1)
        (valid_writes_in_range board { pos with y := y + 1 } shape hb
          hrows hv)
    · rw [if_neg hv]
      exact hy

lemma lock_wf (rt : Nat → TetrominoType) (state : GameState)
    (h : WellFormedState state)
    (hrange : ∀ p, state.currentPiece = some p →
      pieceWritesInRange p.shape p.position.x p.position.y) :
    WellFormedState (lockPieceAndContinue rt state) := by
  obtain ⟨hb, hr, hq⟩ := h
  cases hcp : state.currentPiece with
  | none =>
    simp only [lockPieceAndContinue, hcp]
    exact ⟨hb, hr, hq⟩
  | some p =>
    cases hs : stampRows p.type state.board p.shape p.position.x
        p.position.y with
    | none =>
      simp only [lockPieceAndContinue, hcp, hs]
      exact ⟨hb, hr, hq⟩
    | some b' =>
      obtain ⟨hlen', hr'⟩ := stampRows_dims p.type p.shape state.board
        p.position.x p.position.y b' hs hr (by
          intro r hrw c hc hcell
          have := (hrange p hcp r hrw c hc hcell).1
          simpa [BOARD_WIDTH] using this)
      obtain ⟨hc1, hc2⟩ := clearLines_dims b' (by rw [hlen', hb]) hr'
      simp only [lockPieceAndContinue, hcp, hs]
      refine ⟨hc1, hc2, ?_⟩
      simp only [List.length_append, List.length_tail, hq,
        List.length_singleton]

lemma tryKicks_wf (state : GameState) (p : Tetromino)
    (rs : List (List Nat)) (h : WellFormedState state) :
    ∀ ks : List Int, WellFormedState (tryKicks state p rs ks) := by
  intro ks
  induction ks with
  | nil => exact h
  | cons k rest ih =>
    rw [tryKicks]
    by_cases hk : isValidPosition state.board
        { p.position with x := p.position.x + k } rs = true
    · rw [if_pos hk]
      exact ⟨h.1, h.2.1, h.2.2⟩
    · rw [if_neg hk]
      exact ih

lemma move_down_wf (rt : Nat → TetrominoType) (state : GameState)
    (h : WellFormedState state)
    (hrange : ∀ p, state.currentPiece = some p →
      pieceWritesInRange p.shape p.position.x p.position.y) :
    WellFormedState (gameReducer rt state .MOVE_DOWN) := by
  cases hgo : state.gameOver with
  | true =>
    rw [gameReducer.eq_def, if_pos ⟨hgo, by decide⟩]
    exact h
  | false =>
    cases hps : state.isPaused with
    | true =>
      rw [gameReducer.eq_def, if_neg (by simp [hgo]),
        if_pos ⟨hps, by decide, by decide⟩]
      exact h
    | false =>
      cases hcp : state.currentPiece with
      | none =>
        simp [gameReducer.eq_def, hgo, hps, hcp]
        exact h
      | some p =>
        by_cases hv : isValidPosition state.board
            { p.position with y := p.position.y + 1 } p.shape = true
        · simp [gameReducer.eq_def, hgo, hps, hcp, hv]
          exact ⟨h.1, h.2.1, h.2.2⟩
        · have hv' : isValidPosition state.board
              { p.position with y := p.position.y + 1 } p.shape = false := by
            simpa using hv
          simp [gameReducer.eq_def, hgo, hps, hcp, hv']
          exact lock_wf rt state h hrange

/-- C8 (amended): the dimensional invariant — a 20×10 board and a
3-piece preview queue — holds in the initial state, and is preserved by
every action of the reducer provided the current piece's occupied cells
map strictly left of column 10 and strictly above row 20 (negative rows
allowed — those locks abort before writing).  The proviso is exactly
what the counterexample forces: without it a lock stamps past a row's
right end and the source extends that row beyond 10 cells.  Every
validator-approved piece position satisfies the proviso. -/
theorem reducer_preserves_wellformed (rt : Nat → TetrominoType)
    (state : GameState) (action : GameAction) :
    WellFormedState (initGameState rt) ∧
    (WellFormedState state →
      (∀ p, state.currentPiece = some p →
        pieceWritesInRange p.shape p.position.x p.position.y) →
      WellFormedState (gameReducer rt state action)) := by
  refine ⟨initGameState_wf rt, ?_⟩
  intro h hrange
  cases hgo : state.gameOver with
  | true =>
    by_cases hne : action = GameAction.NEW_GAME
    · subst hne
      simp [gameReducer.eq_def, hgo]
      exact initGameState_wf rt
    · rw [gameReducer.eq_def, if_pos ⟨hgo, hne⟩]
      exact h
  | false =>
    cases hps : state.isPaused with
    | true =>
      by_cases hr1 : action = GameAction.RESUME_GAME
      · subst hr1
        simp [gameReducer.eq_def, hgo, hps]
        exact ⟨h.1, h.2.1, h.2.2⟩
      · by_cases hr2 : action = GameAction.NEW_GAME
        · subst hr2
          simp [gameReducer.eq_def, hgo, hps]
          exact initGameState_wf rt
        · rw [gameReducer.eq_def, if_neg (by simp [hgo]),
            if_pos ⟨hps, hr1, hr2⟩]
          exact h
    | false =>
      cases action with
      | NEW_GAME =>
        simp [gameReducer.eq_def, hgo, hps]
        exact initGameState_wf rt
      | PAUSE_GAME =>
        simp [gameReducer.eq_def, hgo, hps]
        exact ⟨h.1, h.2.1, h.2.2⟩
      | RESUME_GAME =>
        simp [gameReducer.eq_def, hgo, hps]
        exact ⟨h.1, h.2.1, h.2.2⟩
      | GAME_OVER =>
        simp [gameReducer.eq_def, hgo, hps]
        exact ⟨h.1, h.2.1, h.2.2⟩
      | MOVE_DOWN => exact move_down_wf rt state h hrange
      | TICK =>
        rw [gameReducer.eq_def, if_neg (by simp [hgo]),
          if_neg (by simp [hps])]
        show WellFormedState (gameReducer rt state GameAction.MOVE_DOWN)
        exact move_down_wf rt state h hrange
      | MOVE_LEFT =>
        cases hcp : state.currentPiece with
        | none =>
          simp [gameReducer.eq_def, hgo, hps, hcp]
          exact h
        | some p =>
          by_cases hv : isValidPosition state.board
              { p.position with x := p.position.x - 1 } p.shape = true
          · simp [gameReducer.eq_def, hgo, hps, hcp, hv]
            exact ⟨h.1, h.2.1, h.2.2⟩
          · have hv' : isValidPosition state.board
                { p.position with x := p.position.x - 1 } p.shape =
                false := by simpa using hv
            simp [gameReducer.eq_def, hgo, hps, hcp, hv']
            exact h
      | MOVE_RIGHT =>
        cases hcp : state.currentPiece with
        | none =>
          simp [gameReducer.eq_def, hgo, hps, hcp]
          exact h
        | some p =>
          by_cases hv : isValidPosition state.board
              { p.position with x := p.position.x + 1 } p.shape = true
          · simp [gameReducer.eq_def, hgo, hps, hcp, hv]
            exact ⟨h.1, h.2.1, h.2.2⟩
          · have hv' : isValidPosition state.board
                { p.position with x := p.position.x + 1 } p.shape =
                false := by simpa using hv
            simp [gameReducer.eq_def, hgo, hps, hcp, hv']
            exact h
      | ROTATE =>
        cases hcp : state.currentPiece with
        | none =>
          simp [gameReducer.eq_def, hgo, hps, hcp]
          exact h
        | some p =>
          by_cases hv : isValidPosition state.board p.position
              (rotateTetromino p) = true
          · simp [gameReducer.eq_def, hgo, hps, hcp, hv]
            exact ⟨h.1, h.2.1, h.2.2⟩
          · have hv' : isValidPosition state.board p.position
                (rotateTetromino p) = false := by simpa using hv
            simp [gameReducer.eq_def, hgo, hps, hcp, hv']
            exact tryKicks_wf state p (rotateTetromino p) h _
      | HARD_DROP =>
        cases hcp : state.currentPiece with
        | none =>
          simp [gameReducer.eq_def, hgo, hps, hcp]
          exact h
        | some p =>
          simp [gameReducer.eq_def, hgo, hps, hcp]
          refine lock_wf rt _ ⟨h.1, h.2.1, h.2.2⟩ ?_
          intro q hq
          have hqe : ({ p with position := { p.position with
              y := dropLoop state.board p.position p.shape
                (dropFuel state.board p.position.y) p.position.y } } :
              Tetromino) = q := Option.some.inj hq
          rw [← hqe]
          exact dropLoop_writes_in_range state.board p.position p.shape
            h.1 h.2.1 _ p.position.y (hrange p hcp)
      | NEW_PIECE =>
        simp [gameReducer.eq_def, hgo, hps]
        refine ⟨h.1, h.2.1, ?_⟩
        simp only [List.length_append, List.length_tail, h.2.2,
          List.length_singleton]
      | HOLD =>
        cases hcp : state.currentPiece with
        | none =>
          simp [gameReducer.eq_def, hgo, hps, hcp]
          exact h
        | some p =>
          cases hheld : state.heldPiece with
          | none =>
            simp [gameReducer.eq_def, hgo, hps, hcp, hheld]
            refine ⟨h.1, h.2.1, ?_⟩
            simp only [List.length_append, List.length_tail, h.2.2,
              List.length_singleton]
          | some t =>
            by_cases hv : isValidPosition state.board
                { x := if t = TetrominoType.O then 4 else 3, y := 0 }
                (randomTetromino t).shape = true
            · simp [gameReducer.eq_def, hgo, hps, hcp, hheld, hv]
              exact ⟨h.1, h.2.1, h.2.2⟩
            · have hv' : isValidPosition state.board
                  { x := if t = TetrominoType.O then 4 else 3, y := 0 }
                  (randomTetromino t).shape = false := by simpa using hv
              simp [gameReducer.eq_def, hgo, hps, hcp, hheld, hv']
              exact ⟨h.1, h.2.1, h.2.2⟩

/-- C8 counterexample: the claim as stated is false of the program.
The state with a T piece at `(8, 5)` on the empty board is
dimensionally well-formed, but `MOVE_DOWN` finds the step down invalid
(column 10 is out of range) and locks the piece where it is; the write
`newBoard[6][10] = 'T'` extends row 6 to 11 cells, so the resulting
state violates the invariant. -/
theorem reducer_preserves_wellformed_counterexample :
    WellFormedState stateEdge ∧
    gameReducer rtAllI stateEdge .MOVE_DOWN =
      lockPieceAndContinue rtAllI stateEdge ∧
    ((gameReducer rtAllI stateEdge .MOVE_DOWN).board.getD 6 []).length
      = 11 ∧
    ¬ WellFormedState (gameReducer rtAllI stateEdge .MOVE_DOWN) := by
  have hred : gameReducer rtAllI stateEdge .MOVE_DOWN =
      lockPieceAndContinue rtAllI stateEdge := by
    rw [gameReducer.eq_def]
    simp [show stateEdge.gameOver = false from rfl,
      show stateEdge.isPaused = false from rfl,
      show stateEdge.currentPiece = some pieceTEdge from rfl,
      show isValidPosition stateEdge.board
        { pieceTEdge.position with y := pieceTEdge.position.y + 1 }
        pieceTEdge.shape = false by decide]
  refine ⟨⟨by decide, by decide, by decide⟩, hred, ?_, ?_⟩
  · rw [hred]
    decide
  · rw [hred]
    decide

/-- C8 witness: the invariant holds for the concrete initial state and
is kept by a `TICK` on it, whose fresh I piece at `(3, 0)` satisfies
the writes-in-range proviso. -/
theorem reducer_preserves_wellformed_witness :
    WellFormedState (initGameState rtAllI) ∧
    WellFormedState (gameReducer rtAllI statePlaying .TICK) :=
  ⟨(reducer_preserves_wellformed rtAllI statePlaying .TICK).1,
    (reducer_preserves_wellformed rtAllI statePlaying .TICK).2
      ⟨by decide, by decide, by decide⟩
      (by
        intro p hp
        have hpe : randomTetromino .I = p := Option.some.inj hp
        rw [← hpe]
        decide)⟩

/-- C1 amended-claim witness: instantiating the characterization at the
T piece at `(3, -1)` on the empty board, whose occupied cell `(0, 1)`
has negative board row, yields a concrete rejection. -/
theorem validator_enforces_lower_bound_witness :
    isValidPosition createEmptyBoard { x := 3, y := -1 }
      (TETROMINOS .T) = false :=
  (validator_enforces_lower_bound createEmptyBoard { x := 3, y := -1 }
    (TETROMINOS .T)).2 0 (by decide) 1 (by decide) (by decide) (by decide)
